import Mathlib

set_option maxRecDepth 4000
set_option maxHeartbeats 2000000
set_option linter.unusedSectionVars false

/-!
Verification of the event-canonicalization and motif-mining core of the
bidirect-align-dev-traces repository.

The Python sources `src/representations/encoders/motif_mining.py` and
`src/research/rung_extractors/canonicalization.py` are embedded shallowly:
pure functions become Lean functions, the process-wide `MotifRegistry`
singleton becomes explicit state passing over a `RegState` record, Python
`dict`s become insertion-ordered association lists, `collections.Counter`
becomes an insertion-ordered (key, multiplicity) association list, and
`hashlib.sha1(...).hexdigest()` is implemented bit-for-bit over byte lists
(machine words are `Nat` reduced mod 2 ^ 32).
-/

/-! ## SHA-1 (embedding of hashlib.sha1(...).hexdigest()) -/

namespace Sha1

/-- 32-bit left rotation, operands assumed < 2 ^ 32. -/
def rotl (n x : Nat) : Nat :=
  ((x <<< n) ||| (x >>> (32 - n))) % 4294967296

/-- UTF-8 encoding of one Unicode code point (Python str.encode()). -/
def utf8Bytes (c : Nat) : List Nat :=
  if c < 128 then [c]
  else if c < 2048 then
    [192 ||| (c >>> 6), 128 ||| (c &&& 63)]
  else if c < 65536 then
    [224 ||| (c >>> 12), 128 ||| ((c >>> 6) &&& 63), 128 ||| (c &&& 63)]
  else
    [240 ||| (c >>> 18), 128 ||| ((c >>> 12) &&& 63), 128 ||| ((c >>> 6) &&& 63),
      128 ||| (c &&& 63)]

/-- The byte sequence of a string under UTF-8, as Python s.encode(). -/
def strBytes (s : String) : List Nat :=
  (s.data.map (fun c => utf8Bytes c.toNat)).flatten

/-- Big-endian byte rendering of x on n bytes. -/
def beBytes (n x : Nat) : List Nat :=
  (List.range n).map (fun i => (x >>> (8 * (n - 1 - i))) &&& 255)

/-- SHA-1 padding: append 0x80, zero bytes to 56 mod 64, then the 64-bit
bit-length, big-endian. -/
def padBytes (msg : List Nat) : List Nat :=
  let len := msg.length
  let zeros := (119 - len % 64) % 64
  msg ++ 128 :: List.replicate zeros 0 ++ beBytes 8 (8 * len)

/-- Split into 64-byte chunks; fuel-driven so the kernel can evaluate it
(the fuel is an upper bound on the number of chunks, each step consumes
a nonempty list). -/
def chunks64 (fuel : Nat) (l : List Nat) : List (List Nat) :=
  match fuel, l with
  | _, [] => []
  | 0, _ => []
  | Nat.succ f, l => l.take 64 :: chunks64 f (l.drop 64)

/-- Pack bytes into big-endian 32-bit words, 4 bytes each. -/
def toWords : List Nat → List Nat
  | b0 :: b1 :: b2 :: b3 :: rest =>
      ((b0 <<< 24) ||| (b1 <<< 16) ||| (b2 <<< 8) ||| b3) :: toWords rest
  | _ => []

/-- Message-schedule extension, over the reversed word list: the head is the
most recent word, so w[i-3] is at index 2, w[i-8] at 7, w[i-14] at 13 and
w[i-16] at 15. Runs k steps and returns the extended reversed list. -/
def extendRev : Nat → List Nat → List Nat
  | 0, acc => acc
  | Nat.succ k, acc =>
      let w := rotl 1 ((acc.getD 2 0) ^^^ (acc.getD 7 0) ^^^ (acc.getD 13 0) ^^^
        (acc.getD 15 0))
      extendRev k (w :: acc)

/-- One SHA-1 round on state (a, b, c, d, e) with round index i and word w. -/
def round (i : Nat) (st : Nat × Nat × Nat × Nat × Nat) (w : Nat) :
    Nat × Nat × Nat × Nat × Nat :=
  match st with
  | (a, b, c, d, e) =>
    let f :=
      if i < 20 then (b &&& c) ||| ((b ^^^ 4294967295) &&& d)
      else if i < 40 then b ^^^ c ^^^ d
      else if i < 60 then (b &&& c) ||| (b &&& d) ||| (c &&& d)
      else b ^^^ c ^^^ d
    let k :=
      if i < 20 then 1518500249
      else if i < 40 then 1859775393
      else if i < 60 then 2400959708
      else 3395469782
    let temp := (rotl 5 a + f + e + k + w) % 4294967296
    (temp, a, rotl 30 b, c, d)

/-- Run the 80 rounds over the word schedule. -/
def rounds (i : Nat) (st : Nat × Nat × Nat × Nat × Nat) :
    List Nat → Nat × Nat × Nat × Nat × Nat
  | [] => st
  | w :: ws => rounds (i + 1) (round i st w) ws

/-- Compress one 64-byte block into the running hash state. -/
def compress (h : Nat × Nat × Nat × Nat × Nat) (block : List Nat) :
    Nat × Nat × Nat × Nat × Nat :=
  let ws := (extendRev 64 (toWords block).reverse).reverse
  match h, rounds 0 h ws with
  | (h0, h1, h2, h3, h4), (a, b, c, d, e) =>
    ((h0 + a) % 4294967296, (h1 + b) % 4294967296, (h2 + c) % 4294967296,
      (h3 + d) % 4294967296, (h4 + e) % 4294967296)

/-- SHA-1 of a byte list, as the five 32-bit state words. -/
def sha1Words (msg : List Nat) : Nat × Nat × Nat × Nat × Nat :=
  let padded := padBytes msg
  (chunks64 padded.length padded).foldl compress
    (1732584193, 4023233417, 2562383102, 271733878, 3285377520)

/-- Lowercase hex digit. -/
def hexDigit (n : Nat) : Char :=
  if n < 10 then Char.ofNat (48 + n) else Char.ofNat (87 + n)

/-- Eight lowercase hex characters, big-endian, of a 32-bit word. -/
def hex8 (x : Nat) : String :=
  String.mk ((List.range 8).map (fun i => hexDigit ((x >>> (4 * (7 - i))) &&& 15)))

end Sha1

/-- Embedding of Python hashlib.sha1(s.encode()).hexdigest(). -/
def sha1_hex (s : String) : String :=
  match Sha1.sha1Words (Sha1.strBytes s) with
  | (h0, h1, h2, h3, h4) =>
    Sha1.hex8 h0 ++ Sha1.hex8 h1 ++ Sha1.hex8 h2 ++ Sha1.hex8 h3 ++ Sha1.hex8 h4

/-! ## String helpers (kernel-evaluable, over the character list) -/

/-- First n characters (Python s[:n]). -/
def sTake (n : Nat) (s : String) : String := String.mk (s.data.take n)

/-- All but the first n characters (Python s[n:]). -/
def sDrop (n : Nat) (s : String) : String := String.mk (s.data.drop n)

/-- Python s.startswith(pre). -/
def sStartsWith (s pre : String) : Bool := pre.data.isPrefixOf s.data

/-- Helper for substring search over character lists. -/
def containsAux (sub : List Char) : List Char → Bool
  | [] => decide (sub = [])
  | c :: cs => sub.isPrefixOf (c :: cs) || containsAux sub cs

/-- Python sub in s (substring containment). -/
def sContains (s sub : String) : Bool := containsAux sub.data s.data

/-- Python s.lower(), ASCII. -/
def sLower (s : String) : String := String.mk (s.data.map Char.toLower)

/-- Python s.upper(), ASCII. -/
def sUpper (s : String) : String := String.mk (s.data.map Char.toUpper)

/-- Python s.strip(): trim whitespace at both ends. -/
def pyStrip (s : String) : String :=
  String.mk (((s.data.dropWhile Char.isWhitespace).reverse.dropWhile
    Char.isWhitespace).reverse)

/-- Split on a single separator character, keeping empty pieces
(Python s.split(sep) for a one-character sep). -/
def splitCharAux (sep : Char) (cur : List Char) : List Char → List String
  | [] => [String.mk cur.reverse]
  | c :: cs =>
      if c = sep then String.mk cur.reverse :: splitCharAux sep [] cs
      else splitCharAux sep (c :: cur) cs

/-- Python s.split("_"). -/
def splitUnderscore (s : String) : List String := splitCharAux '_' [] s.data

/-! ## A model of the Python values the canonicalization layer reads

Events and traces are Python dicts with arbitrary nesting.  `PyVal` models
the value universe the embedded functions inspect; dicts are
insertion-ordered association lists (Python dicts cannot hold duplicate
keys, and the embedded code only reads them). -/

inductive PyVal where
  | none
  | str (s : String)
  | int (n : Int)
  | bool (b : Bool)
  | dict (fields : List (String × PyVal))
  | list (items : List PyVal)

/-- Python dict.get(k): the value under k, or None when absent. -/
def pyGet (fields : List (String × PyVal)) (k : String) : PyVal :=
  match fields with
  | [] => PyVal.none
  | (k2, v) :: rest => if k2 = k then v else pyGet rest k

/-- Python dict.get(k, default). -/
def pyGetD (fields : List (String × PyVal)) (k : String) (d : PyVal) : PyVal :=
  match fields with
  | [] => d
  | (k2, v) :: rest => if k2 = k then v else pyGetD rest k d

/-- Python k in dict. -/
def pyHasKey (fields : List (String × PyVal)) (k : String) : Bool :=
  match fields with
  | [] => false
  | (k2, _) :: rest => k2 = k || pyHasKey rest k

/-- Python truthiness. -/
def truthy : PyVal → Bool
  | PyVal.none => false
  | PyVal.str s => decide (s ≠ "")
  | PyVal.int n => decide (n ≠ 0)
  | PyVal.bool b => b
  | PyVal.dict fields => !fields.isEmpty
  | PyVal.list items => !items.isEmpty

/-- Python a or b: the first operand when truthy, else the second. -/
def pyOr (a b : PyVal) : PyVal := if truthy a then a else b

/-- Python str(v) for the scalar values the embedded code converts.  The
renderings of nested dicts and lists abstract CPython repr (no claim
exercises them; the code only ever calls str() on type fields and prompt
payloads, which are scalars in every modelled trace). -/
def pyStrOf : PyVal → String
  | PyVal.none => "None"
  | PyVal.str s => s
  | PyVal.int n => toString n
  | PyVal.bool b => if b then "True" else "False"
  | PyVal.dict _ => "<dict>"
  | PyVal.list _ => "<list>"

/-! ## canonicalization.py -/

/-- Delimiter set of the regex [._/\\-]+ in canonicalize_event. -/
def isDelim (c : Char) : Bool :=
  c = '.' || c = '_' || c = '/' || c = '\\' || c = '-'

/-- State machine for re.split(r"[._/\\-]+", raw): maximal delimiter runs
separate pieces; `some cur` means a piece (reversed accumulator cur) is
open, `none` means a delimiter run is in progress. -/
def splitDelimsAux (st : Option (List Char)) : List Char → List String
  | [] =>
      match st with
      | some cur => [String.mk cur.reverse]
      | Option.none => [""]
  | c :: cs =>
      match st, isDelim c with
      | some cur, true => String.mk cur.reverse :: splitDelimsAux Option.none cs
      | some cur, false => splitDelimsAux (some (c :: cur)) cs
      | Option.none, true => splitDelimsAux Option.none cs
      | Option.none, false => splitDelimsAux (some [c]) cs

/-- re.split(r"[._/\\-]+", s); always returns at least one piece. -/
def splitDelims (s : String) : List String := splitDelimsAux (some []) s.data

/-- Embedding of canonicalize_event (canonicalization.py, lines 14-51).
Non-dicts yield the sentinel; otherwise the declared type (first truthy of
type/operation/verb) defaults to "other" when None, is lowercased, split on
delimiters, and the stripped head is hashed to 6 hex characters. -/
def canonicalize_event (event : PyVal) : String :=
  match event with
  | PyVal.dict fields =>
    let event_type :=
      pyOr (pyGet fields ("type")) (pyOr (pyGet fields ("operation")) (pyGet fields ("verb")))
    let raw :=
      match event_type with
      | PyVal.none => "other"
      | v => sLower (pyStrOf v)
    let parts := splitDelims raw
    match parts with
    | [] => "EV_OTHER"
    | hd :: _ =>
      let head := pyStrip hd
      if head = "" then "EV_OTHER"
      else "EV_" ++ sTake 6 (sha1_hex head)
  | _ => "EV_OTHER"

/-- Modelled from the spec: Python json.loads (standard library, not part
of this repository).  The spec only requires that a string-encoded details
block either parses to a structured value or fails; the grammar modelled
here covers null, booleans, integers, escaped strings, arrays and objects,
which is the shape of every details block the spec describes.  Fuel-driven
recursive-descent over the character list. -/
def jsonSkipWs : List Char → List Char
  | c :: cs => if c = ' ' || c = '\n' || c = '\t' || c = '\r' then jsonSkipWs cs else c :: cs
  | [] => []

def jsonStringAux (fuel : Nat) (acc : List Char) : List Char → Option (String × List Char)
  | [] => Option.none
  | c :: cs =>
    match fuel with
    | 0 => Option.none
    | Nat.succ f =>
      if c = '"' then some (String.mk acc.reverse, cs)
      else if c = '\\' then
        match cs with
        | [] => Option.none
        | e :: cs2 =>
          let r : Option Char :=
            if e = '"' then some '"'
            else if e = '\\' then some '\\'
            else if e = '/' then some '/'
            else if e = 'n' then some '\n'
            else if e = 't' then some '\t'
            else if e = 'r' then some '\r'
            else Option.none
          match r with
          | some ch => jsonStringAux f (ch :: acc) cs2
          | Option.none => Option.none
      else jsonStringAux f (c :: acc) cs

def jsonDigits (fuel : Nat) (acc : Nat) (seenAny : Bool) :
    List Char → Option (Nat × List Char)
  | [] => if seenAny then some (acc, []) else Option.none
  | c :: cs =>
    match fuel with
    | 0 => Option.none
    | Nat.succ f =>
      if c.isDigit then jsonDigits f (acc * 10 + (c.toNat - 48)) true cs
      else if seenAny then some (acc, c :: cs)
      else Option.none

mutual

def jsonVal (fuel : Nat) (l : List Char) : Option (PyVal × List Char) :=
  match fuel with
  | 0 => Option.none
  | Nat.succ f =>
    match jsonSkipWs l with
    | [] => Option.none
    | c :: cs =>
      if c = 'n' then
        match cs with
        | 'u' :: 'l' :: 'l' :: rest => some (PyVal.none, rest)
        | _ => Option.none
      else if c = 't' then
        match cs with
        | 'r' :: 'u' :: 'e' :: rest => some (PyVal.bool true, rest)
        | _ => Option.none
      else if c = 'f' then
        match cs with
        | 'a' :: 'l' :: 's' :: 'e' :: rest => some (PyVal.bool false, rest)
        | _ => Option.none
      else if c = '"' then
        match jsonStringAux f [] cs with
        | some (s, rest) => some (PyVal.str s, rest)
        | Option.none => Option.none
      else if c = '-' then
        match jsonDigits f 0 false cs with
        | some (n, rest) => some (PyVal.int (-(n : Int)), rest)
        | Option.none => Option.none
      else if c.isDigit then
        match jsonDigits f 0 false (c :: cs) with
        | some (n, rest) => some (PyVal.int (n : Int), rest)
        | Option.none => Option.none
      else if c = '[' then
        match jsonSkipWs cs with
        | ']' :: rest => some (PyVal.list [], rest)
        | l2 => jsonArr f [] l2
      else if c = '\x7b' then
        match jsonSkipWs cs with
        | '\x7d' :: rest => some (PyVal.dict [], rest)
        | l2 => jsonObj f [] l2
      else Option.none

def jsonArr (fuel : Nat) (acc : List PyVal) (l : List Char) :
    Option (PyVal × List Char) :=
  match fuel with
  | 0 => Option.none
  | Nat.succ f =>
    match jsonVal f l with
    | Option.none => Option.none
    | some (v, rest) =>
      match jsonSkipWs rest with
      | ',' :: rest2 => jsonArr f (v :: acc) rest2
      | ']' :: rest2 => some (PyVal.list (v :: acc).reverse, rest2)
      | _ => Option.none

def jsonObj (fuel : Nat) (acc : List (String × PyVal)) (l : List Char) :
    Option (PyVal × List Char) :=
  match fuel with
  | 0 => Option.none
  | Nat.succ f =>
    match jsonSkipWs l with
    | '"' :: cs =>
      match jsonStringAux f [] cs with
      | Option.none => Option.none
      | some (k, rest) =>
        match jsonSkipWs rest with
        | ':' :: rest2 =>
          match jsonVal f rest2 with
          | Option.none => Option.none
          | some (v, rest3) =>
            match jsonSkipWs rest3 with
            | ',' :: rest4 => jsonObj f ((k, v) :: acc) rest4
            | '\x7d' :: rest4 => some (PyVal.dict ((k, v) :: acc).reverse, rest4)
            | _ => Option.none
        | _ => Option.none
    | _ => Option.none

end

/-- Modelled from the spec: json.loads on a whole string; failure (or
trailing garbage) gives none, as the callers catch JSONDecodeError. -/
def jsonLoads (s : String) : Option PyVal :=
  match jsonVal (s.data.length + 1) s.data with
  | some (v, rest) => if jsonSkipWs rest = [] then some v else Option.none
  | Option.none => Option.none

/-- Embedding of extract_prompt_from_event (canonicalization.py, lines
54-113): only events whose declared type is one of the four prompt types
expose prompt text, searched first in the event fields, then in a details
dict, then in a string-encoded details block parsed as JSON.  One caveat:
when the details string parses to JSON that is not an object, CPython
raises an uncaught AttributeError at the .get call (the except clause
catches only JSONDecodeError and TypeError); this embedding returns no
prompt there.  The difference is observable only for prompt-typed events
carrying such a details string, and no trace in this development has
one. -/
def extract_prompt_from_event (event : PyVal) : Option String :=
  match event with
  | PyVal.dict fields =>
    let event_type :=
      match pyGet fields ("type") with
      | PyVal.none => ""
      | v => sLower (pyStrOf v)
    if event_type = "prompt" || event_type = "prompt_sent" ||
        event_type = "conversation" || event_type = "ai_prompt" then
      let text :=
        pyOr (pyGet fields ("text")) (pyOr (pyGet fields ("content"))
          (pyOr (pyGet fields ("prompt")) (pyGet fields ("message"))))
      if truthy text then some (pyStrOf text)
      else
        match pyGetD fields ("details") (PyVal.dict []) with
        | PyVal.dict dfields =>
          let t2 :=
            pyOr (pyGet dfields ("text")) (pyOr (pyGet dfields ("content"))
              (pyOr (pyGet dfields ("prompt")) (pyGet dfields ("message"))))
          if truthy t2 then some (pyStrOf t2) else Option.none
        | PyVal.str s =>
          match jsonLoads s with
          | some (PyVal.dict dfields) =>
            let t2 :=
              pyOr (pyGet dfields ("text")) (pyOr (pyGet dfields ("content"))
                (pyGet dfields ("prompt")))
            if truthy t2 then some (pyStrOf t2) else Option.none
          | _ => Option.none
        | _ => Option.none
    else Option.none
  | _ => Option.none

/-! ## intent.py (the keyword classifier reached from event_sequence) -/

/-- Embedding of extract_intent_vector (intent.py, lines 661-723): keyword
matching over the lowercased text, one category per keyword family, in
source order, with INTENT_OTHER when nothing matches. -/
def extract_intent_vector (text : String) : List String :=
  if text = "" then ["INTENT_OTHER"]
  else
    let tl := sLower text
    let has := fun (ws : List String) => ws.any (fun w => sContains tl w)
    let intents :=
      (if has ["fix", "error", "bug", "debug", "broken", "issue", "problem",
          "wrong", "crash", "exception"] then ["INTENT_DEBUG"] else [])
      ++ (if has ["add", "create", "implement", "new", "build", "make",
          "feature", "functionality"] then ["INTENT_FEATURE"] else [])
      ++ (if has ["refactor", "clean", "improve", "optimize", "restructure",
          "reorganize", "simplify"] then ["INTENT_REFACTOR"] else [])
      ++ (if has ["test", "verify", "check", "validate", "ensure", "assert",
          "spec"] then ["INTENT_TEST"] else [])
      ++ (if has ["document", "comment", "explain", "describe", "docstring",
          "readme", "docs"] then ["INTENT_DOCUMENT"] else [])
      ++ (if has ["review", "explain", "understand", "what", "how", "why",
          "analyze", "inspect"] then ["INTENT_EXPLAIN"] else [])
      ++ (if has ["browse", "explore", "find", "search", "look", "navigate",
          "goto"] then ["INTENT_NAVIGATE"] else [])
      ++ (if has ["config", "setup", "install", "configure", "settings",
          "preferences"] then ["INTENT_CONFIGURE"] else [])
      ++ (if has ["deploy", "release", "publish", "ship", "production",
          "staging"] then ["INTENT_DEPLOY"] else [])
      ++ (if has ["review", "pr", "pull request", "code review", "feedback"]
          then ["INTENT_REVIEW"] else [])
    if intents = [] then ["INTENT_OTHER"] else intents

/-- Embedding of OpenRouterIntentClassifier.classify (intent.py, lines
942-967) in the credential-free deployment: enabled is
bool(OPENROUTER_KEY and requests), OPENROUTER_KEY defaults to the empty
string, so classify answers OTHER for every text without touching the
network.  The enabled branch performs an HTTP call whose answer depends on
the environment and is not modelled; it is unreachable here because
intent_tokens_for_prompt is only ever invoked with include_llm = false in
this development. -/
def llmClassify (_text : String) : String := "OTHER"

/-- Embedding of intent_tokens_for_prompt (intent.py, lines 973-986). -/
def intent_tokens_for_prompt (prompt : String) (include_llm : Bool := false) :
    List String :=
  extract_intent_vector prompt
    ++ (if include_llm then ["INTENT_LLM_" ++ llmClassify prompt] else [])

/-- Embedding of event_sequence (canonicalization.py, lines 116-170):
canonical symbols in stored event order, prompt-derived intent markers
inserted before their event, then markers for a separate top-level prompt
list.  Non-dict traces or non-list event containers yield []; non-dict
events are skipped.  (A non-list value under the prompts key would raise in
Python; no modelled trace carries one.) -/
def event_sequence (trace : PyVal) (include_prompts : Bool := true)
    (include_llm_intents : Bool := false) : List String :=
  match trace with
  | PyVal.dict tfields =>
    match pyGetD tfields ("events") (PyVal.list []) with
    | PyVal.list evs =>
      let fromEvents :=
        evs.foldl (fun acc ev =>
          match ev with
          | PyVal.dict _ =>
            let pre :=
              if include_prompts then
                match extract_prompt_from_event ev with
                | some t => intent_tokens_for_prompt t include_llm_intents
                | Option.none => []
              else []
            acc ++ pre ++ [canonicalize_event ev]
          | _ => acc) []
      let fromPrompts :=
        if include_prompts && pyHasKey tfields ("prompts") then
          match pyGetD tfields ("prompts") (PyVal.list []) with
          | PyVal.list ps =>
            ps.foldl (fun acc p =>
              match p with
              | PyVal.dict pfields =>
                let t :=
                  pyOr (pyGet pfields ("text")) (pyOr (pyGet pfields ("content"))
                    (pyGet pfields ("prompt")))
                if truthy t then
                  acc ++ intent_tokens_for_prompt (pyStrOf t) include_llm_intents
                else acc
              | _ => acc) []
          | _ => []
        else []
      fromEvents ++ fromPrompts
    | _ => []
  | _ => []

/-! ## motif_mining.py: the four miners

collections.Counter is modelled as an insertion-ordered association list of
(key, multiplicity): incrementing an existing key bumps it in place,
a fresh key is appended with count 1, and iteration over items() is
iteration over the list, which matches CPython dict ordering. -/

/-- Counter increment (counts[k] += 1). -/
def bump {α : Type} [DecidableEq α] : List (α × Nat) → α → List (α × Nat)
  | [], k => [(k, 1)]
  | (k2, v) :: rest, k =>
      if k2 = k then (k2, v + 1) :: rest else (k2, v) :: bump rest k

/-- A Counter built over a whole list (used by the hotspot and Sequitur
miners, which count every occurrence). -/
def counter {α : Type} [DecidableEq α] (l : List α) : List (α × Nat) :=
  l.foldl bump []

/-- Embedding of transition_motifs (motif_mining.py, lines 279-298): one
T_a_b per adjacent pair in order, truncated to max_count. -/
def transition_motifs (seq : List String) (max_count : Nat := 100) :
    List String :=
  if seq.length < 2 then []
  else ((seq.zip seq.tail).map (fun p => "T_" ++ p.1 ++ "_" ++ p.2)).take max_count

/-- The cycle scan of structural_motifs: for every index i with
seq[i] = seq[i+2] and seq[i] distinct from seq[i+1], one CYCLE motif, not
deduplicated. -/
def cycle_motifs : List String → List String
  | a :: b :: c :: rest =>
      (if a = c ∧ a ≠ b then ["CYCLE_" ++ a ++ "_" ++ b] else [])
        ++ cycle_motifs (b :: c :: rest)
  | _ => []

/-- First-occurrence deduplication with an explicit seen accumulator;
firstDedupAux [] models iteration over Python set(l) insertion order and
len(set(l)). -/
def firstDedupAux {α : Type} [DecidableEq α] (seen : List α) : List α → List α
  | [] => []
  | x :: xs =>
      if x ∈ seen then firstDedupAux seen xs
      else x :: firstDedupAux (x :: seen) xs

/-- The distinct elements of l in first-occurrence order. -/
def firstDedup {α : Type} [DecidableEq α] (l : List α) : List α :=
  firstDedupAux [] l

/-- Embedding of structural_motifs (motif_mining.py, lines 301-332):
cycles, then hotspots (count at least 5), then HIGH_SWITCHING when the
distinct-symbol ratio exceeds 0.7 (len(set)/len > 0.7, stated over
naturals as 7*len < 10*len(set); no sequence short enough to build can
make the float and rational comparisons differ). -/
def structural_motifs (seq : List String) : List String :=
  if seq.length < 2 then []
  else
    cycle_motifs seq
      ++ ((counter seq).filter (fun p => decide (5 ≤ p.2))).map
          (fun p => "HOT_" ++ p.1 ++ "_" ++ toString p.2)
      ++ (if 7 * seq.length < 10 * (firstDedup seq).length then
            ["HIGH_SWITCHING"]
          else [])

/-- Per-row counting step of prefixspan: every item of the row is counted
at most once, tracked by the visited set. -/
def countRowAux (visited : List String) (counts : List (String × Nat)) :
    List String → List (String × Nat)
  | [] => counts
  | item :: rest =>
      if item ∈ visited then countRowAux visited counts rest
      else countRowAux (item :: visited) (bump counts item) rest

/-- Support counts over a projected database: each row contributes each of
its distinct items once (motif_mining.py, lines 356-362). -/
def countItems (db : List (List String)) : List (String × Nat) :=
  db.foldl (fun counts row => countRowAux [] counts row) []

/-- Python s[s.index(item)+1:], or failure when item is absent
(the row is then dropped from the projected database). -/
def afterFirst (item : String) : List String → Option (List String)
  | [] => Option.none
  | x :: xs => if x = item then some xs else afterFirst item xs

/-- Embedding of the recursive projection step of prefixspan
(motif_mining.py, lines 350-381).  The fuel argument carries the
remaining pattern length max_len - len(prefix), so fuel 0 is exactly the
len(prefix) >= max_len cutoff, and the redundant inner
len(new_prefix) < max_len guard of the source is subsumed by the callee
cutoff.  For each item of support at least min_support, in counter order:
record the extended prefix, then recurse on the database of row remainders
past the first occurrence of the item. -/
def project (min_support : Nat) (fuel : Nat) (pfx : List String)
    (db : List (List String)) : List (List String) :=
  match fuel with
  | 0 => []
  | Nat.succ fuel2 =>
    (((countItems db).filter (fun p => decide (min_support ≤ p.2))).map
      (fun p =>
        let newPfx := pfx ++ [p.1]
        newPfx :: project min_support fuel2 newPfx
          (db.filterMap (afterFirst p.1)))).flatten

/-- Embedding of prefixspan (motif_mining.py, lines 335-385): the
projection starts from the empty prefix and the single-row projected
database [seq]. -/
def prefixspan (seq : List String) (min_support : Nat := 2)
    (max_len : Nat := 4) : List (List String) :=
  project min_support max_len [] [seq]

/-- Embedding of prefixspan_motifs (motif_mining.py, lines 388-403):
formats the patterns of length at least 2 as PS_-joined strings. -/
def prefixspan_motifs (seq : List String) (min_support : Nat := 2)
    (max_len : Nat := 4) : List String :=
  if seq.length < 2 then []
  else
    ((prefixspan seq min_support max_len).filter (fun p => decide (2 ≤ p.length))).map
      (fun p => "PS_" ++ String.intercalate ("_") p)

/-- Embedding of sequitur_rules (motif_mining.py, lines 406-445): one
SQ_a_b per bigram of multiplicity at least 2, in first-occurrence order,
then (when the sequence has at least 3 symbols) one SQ_a_b_c per such
trigram. -/
def sequitur_rules (seq : List String) : List String :=
  if seq.length < 2 then []
  else
    ((counter (seq.zip seq.tail)).filter (fun p => decide (2 ≤ p.2))).map
        (fun p => "SQ_" ++ p.1.1 ++ "_" ++ p.1.2)
      ++ (if 3 ≤ seq.length then
            ((counter ((seq.zip seq.tail).zip seq.tail.tail)).filter
                (fun p => decide (2 ≤ p.2))).map
              (fun p => "SQ_" ++ p.1.1.1 ++ "_" ++ p.1.1.2 ++ "_" ++ p.1.2)
          else [])

/-! ## MotifRegistry and the unifier

The class-level dicts _registry (hash to original pattern) and
_descriptions (motif to description) of the process-wide singleton are
threaded explicitly as a RegState.  Python dict assignment d[k] = v
overwrites in place, keeping insertion order. -/

/-- First value stored under k, if any (Python d.get(k)). -/
def dictGet : List (String × String) → String → Option String
  | [], _ => Option.none
  | (k2, v) :: rest, k => if k2 = k then some v else dictGet rest k

/-- Python d[k] = v: replace in place when k is present, else append. -/
def dictSet : List (String × String) → String → String → List (String × String)
  | [], k, v => [(k, v)]
  | (k2, v2) :: rest, k, v =>
      if k2 = k then (k2, v) :: rest else (k2, v2) :: dictSet rest k v

/-- The two class-level caches of MotifRegistry. -/
structure RegState where
  registry : List (String × String)
  descriptions : List (String × String)

/-- The state after MotifRegistry.clear(): both caches empty. -/
def regEmpty : RegState := { registry := [], descriptions := [] }

namespace MotifRegistry

/-- Embedding of MotifRegistry.register (motif_mining.py, lines 41-44):
plain dict assignment, overwriting any entry already stored under the
hash. -/
def register (original hashed : String) (st : RegState) : RegState :=
  { st with registry := dictSet st.registry hashed original }

/-- Embedding of MotifRegistry.get_original (lines 46-49). -/
def get_original (hashed : String) (st : RegState) : Option String :=
  dictGet st.registry hashed

/-- Python re.search(r'_(\d+)$', p): the maximal trailing digit run when it
is nonempty and preceded by an underscore. -/
def trailingCount (p : String) : Option String :=
  let rev := p.data.reverse
  let digits := rev.takeWhile Char.isDigit
  if digits.isEmpty then Option.none
  else
    match rev.drop digits.length with
    | c :: _ => if c = '_' then some (String.mk digits.reverse) else Option.none
    | [] => Option.none

/-- Python re.search(r'(\d+)', p): the first digit run anywhere. -/
def firstDigitRun (p : String) : Option String :=
  let rest := p.data.dropWhile (fun c => !c.isDigit)
  let digits := rest.takeWhile Char.isDigit
  if digits.isEmpty then Option.none else some (String.mk digits)

/-- Python str.title() for the intent fragments: capitalize the first
letter of each alphanumeric run, lowercase the rest. -/
def titleAux (prevAlnum : Bool) : List Char → List Char
  | [] => []
  | c :: cs =>
      let isAl := c.isAlpha || c.isDigit
      (if isAl && !prevAlnum then c.toUpper else c.toLower) :: titleAux isAl cs

def pyTitle (s : String) : String := String.mk (titleAux false s.data)

/-- Value of one hex digit character, if any. -/
def hexDigitVal (c : Char) : Option Nat :=
  if c.isDigit then some (c.toNat - 48)
  else if 'a' ≤ c && c ≤ 'f' then some (c.toNat - 87)
  else if 'A' ≤ c && c ≤ 'F' then some (c.toNat - 55)
  else Option.none

/-- Continuation of a hex digit run: (single underscore)? digit, repeated;
rejects trailing, doubled or digit-less underscores as CPython does. -/
def hexTail (acc : Nat) : List Char → Option Nat
  | [] => some acc
  | '_' :: cs =>
      match cs with
      | c :: cs2 =>
          match hexDigitVal c with
          | some d => hexTail (acc * 16 + d) cs2
          | Option.none => Option.none
      | [] => Option.none
  | c :: cs =>
      match hexDigitVal c with
      | some d => hexTail (acc * 16 + d) cs
      | Option.none => Option.none

/-- Embedding of Python int(s, 16) for ASCII inputs: optional surrounding
whitespace, an optional sign, an optional 0x/0X prefix (after which a
leading underscore is allowed), then hex digits with single underscores
between digits; every other shape raises ValueError, modelled as none.
CPython additionally accepts non-ASCII Unicode digits and whitespace,
which cannot occur in the 4-character hash slices the caller feeds in. -/
def hexVal (s : String) : Option Int :=
  let cs := (s.data.dropWhile Char.isWhitespace).reverse.dropWhile
    Char.isWhitespace |>.reverse
  let (neg, cs2) : Bool × List Char :=
    match cs with
    | '+' :: rest => (false, rest)
    | '-' :: rest => (true, rest)
    | rest => (false, rest)
  let body : Option Nat :=
    match cs2 with
    | '0' :: x :: rest =>
        if x = 'x' || x = 'X' then
          match rest with
          | [] => Option.none
          | _ => hexTail 0 rest
        else
          match hexDigitVal x with
          | some d => hexTail d rest
          | Option.none => Option.none
    | c :: rest =>
        match hexDigitVal c with
        | some d => hexTail d rest
        | Option.none => Option.none
    | [] => Option.none
  match body with
  | some n => some (if neg then -(n : Int) else (n : Int))
  | Option.none => Option.none

/-- Embedding of MotifRegistry._describe_original_pattern (lines 80-130). -/
def describe_original_pattern (p : String) : String :=
  if sStartsWith p ("T_") then
    let parts := splitUnderscore (sDrop 2 p)
    if 4 ≤ parts.length then "Sequential Edit Transition" else "Edit Transition"
  else if sStartsWith p ("PS_") then
    let parts := splitUnderscore (sDrop 3 p)
    let n_events := (parts.filter (fun q => decide (q = "EV"))).length
    if 3 ≤ n_events then "Frequent " ++ toString n_events ++ "-Step Sequence"
    else "Frequent Edit Sequence"
  else if sStartsWith p ("SQ_") then "Compressed Edit Pattern"
  else if sStartsWith p ("CYCLE_") then "Iterative Edit Cycle"
  else if sStartsWith p ("HOT_") then
    match trailingCount p with
    | some n => "Edit Hotspot (" ++ n ++ "x)"
    | Option.none => "Edit Hotspot"
  else if p = "HIGH_SWITCHING" then "High Edit Diversity"
  else if sContains p ("INTENT_") then
    let intent :=
      (splitUnderscore ((p.splitOn ("INTENT_")).getLastD (""))).headD ("")
    pyTitle intent ++ " Intent Signal"
  else if sStartsWith p ("EV_") then "Edit Event"
  else "Workflow Pattern"

/-- The eight canned templates for unregistered hashes (lines 145-154). -/
def pattern_types : List String :=
  ["Edit Sequence", "Code Change Flow", "Multi-File Update", "Refactor Pattern",
    "Navigation Sequence", "Development Flow", "Modification Chain", "Workflow Step"]

/-- Embedding of MotifRegistry._describe_pattern_by_type (lines 132-207). -/
def describe_pattern_by_type (m : String) : String :=
  if sStartsWith m ("M_") then
    let hash_val := sTake 4 (sDrop 2 m)
    let idx := match hexVal hash_val with
               | some n => (n % 8).toNat
               | Option.none => 0
    pattern_types.getD idx ("") ++ " #" ++ hash_val
  else if sStartsWith m ("T_") then "Edit Transition"
  else if sStartsWith m ("PS_") then "Frequent Sequence"
  else if sStartsWith m ("SQ_") then "Compression Rule"
  else if sStartsWith m ("CYCLE_") then "Edit Cycle"
  else if sStartsWith m ("HOT") || sStartsWith m ("HOTSPOT") then
    match firstDigitRun m with
    | some n => "Edit Hotspot (" ++ n ++ "x)"
    | Option.none => "Edit Hotspot"
  else if sStartsWith m ("INTENT_TYPE_") then
    pyTitle ((m.replace ("INTENT_TYPE_") ("")).replace ("_") (" ")) ++ " Intent"
  else if sStartsWith m ("INTENT_TRANS") then "Intent Transition"
  else if sStartsWith m ("INTENT_") then
    pyTitle ((m.replace ("INTENT_") ("")).replace ("_") (" ")) ++ " Signal"
  else if sStartsWith m ("DEPENDENCY") then "Dependency Traversal"
  else if sContains (sUpper m) ("SWITCHING") then "High Edit Diversity"
  else if sStartsWith m ("NG_") then "N-gram Pattern"
  else if m.length ≤ 20 then m
  else sTake 17 m ++ "..."

/-- Embedding of MotifRegistry._generate_description (lines 68-78): a
registered M_ hash is described through its original pattern, everything
else by its own type prefix. -/
def generate_description (st : RegState) (m : String) : String :=
  match dictGet st.registry m with
  | some original =>
      if sStartsWith m ("M_") then describe_original_pattern original
      else describe_pattern_by_type m
  | Option.none => describe_pattern_by_type m

/-- Embedding of MotifRegistry.describe (lines 51-61): the _descriptions
cache is consulted first, and a freshly generated description is stored
into it. -/
def describe (m : String) (st : RegState) : String × RegState :=
  match dictGet st.descriptions m with
  | some d => (d, st)
  | Option.none =>
      let d := generate_description st m
      (d, { st with descriptions := dictSet st.descriptions m d })

/-- Embedding of MotifRegistry._categorize (lines 209-258); no caching. -/
def categorize (st : RegState) (m : String) : String :=
  let original := (dictGet st.registry m).getD m
  if sStartsWith m ("T_") || sStartsWith m ("PS_") || sStartsWith m ("TRANS_")
      || sStartsWith m ("NG_") then "Sequential Pattern"
  else if sStartsWith m ("M_") then
    if original ≠ m then
      if sStartsWith original ("T_") then "Sequential Pattern"
      else if sStartsWith original ("PS_") then "Frequent Sequence"
      else if sStartsWith original ("SQ_") then "Compression Pattern"
      else if sStartsWith original ("CYCLE_") then "Iterative Pattern"
      else if sStartsWith original ("HOT_") then "Hotspot Pattern"
      else "Mined Pattern"
    else "Mined Pattern"
  else if sStartsWith m ("CYCLE_") || sContains m ("CYCLE") then "Iterative Pattern"
  else if sStartsWith m ("HOT") || sStartsWith m ("HOTSPOT") then "Hotspot Pattern"
  else if sContains (sUpper m) ("SWITCHING") then "Diversity Pattern"
  else if sStartsWith m ("INTENT_") then "Intent Signal"
  else if sStartsWith m ("DEPENDENCY") then "Dependency Pattern"
  else if sStartsWith m ("SQ_") then "Compression Pattern"
  else "Other Pattern"

/-- Embedding of MotifRegistry.get_category (lines 63-66): recomputed on
every call, never cached. -/
def get_category (m : String) (st : RegState) : String := categorize st m

end MotifRegistry

/-- The 10-hex-character motif hash of unify_motifs:
hashlib.sha1(m.encode()).hexdigest()[:10]. -/
def sha1_10 (m : String) : String := sTake 10 (sha1_hex m)

/-- The externally visible hashed motif form M_(10 hex chars). -/
def hashForm (m : String) : String := "M_" ++ sha1_10 m

/-- The dedup-and-register loop of unify_motifs (motif_mining.py, lines
462-481): per call, a hash seen before is skipped; a fresh hash emits
M_(hash) and, when register is set, stores hash to raw in the Registry. -/
def unifyLoop (reg : Bool) (seen : List String) (ms : List String)
    (st : RegState) : List String × RegState :=
  match ms with
  | [] => ([], st)
  | m :: rest =>
    let h := sha1_10 m
    if h ∈ seen then unifyLoop reg seen rest st
    else
      let st2 := if reg then MotifRegistry.register m ("M_" ++ h) st else st
      let r := unifyLoop reg (h :: seen) rest st2
      (("M_" ++ h) :: r.1, r.2)

/-- Embedding of unify_motifs (motif_mining.py, lines 448-484):
concatenate the input lists in caller order, hash-deduplicate keeping
first occurrences, register when asked, and truncate the output to
max_total (registration is not truncated, as in the source). -/
def unify_motifs (motif_lists : List (List String)) (max_total : Nat := 300)
    (reg : Bool := true) (st : RegState) : List String × RegState :=
  let r := unifyLoop reg [] motif_lists.flatten st
  (r.1.take max_total, r.2)

/-- Embedding of motifs_from_sequence (motif_mining.py, lines 487-512):
the four miners in order, unified with registration. -/
def motifs_from_sequence (seq : List String) (max_total : Nat := 300)
    (st : RegState) : List String × RegState :=
  if seq.length < 2 then ([], st)
  else
    unify_motifs
      [transition_motifs seq, structural_motifs seq,
        prefixspan_motifs seq, sequitur_rules seq]
      max_total true st

/-! ## Auxiliary definitions used by the specification statements -/

/-- Number of occurrences of a in l. -/
def countOcc {α : Type} [DecidableEq α] (a : α) (l : List α) : Nat :=
  (l.filter (fun b => decide (b = a))).length

/-- Keep the first element for each value of f, tracking seen f-values;
dedupByAux sha1_10 [] is the observable skeleton of the unify loop. -/
def dedupByAux (f : String → String) (seen : List String) :
    List String → List String
  | [] => []
  | x :: xs =>
      if f x ∈ seen then dedupByAux f seen xs
      else x :: dedupByAux f (f x :: seen) xs

/-- First representative of each f-class, in first-occurrence order. -/
def dedupBy (f : String → String) (l : List String) : List String :=
  dedupByAux f [] l

/-- The trace of the end-to-end property: three events with declared types
file.create, file.modify, file.create and no prompts. -/
def c3_trace : PyVal :=
  PyVal.dict
    [(("events"),
      PyVal.list
        [PyVal.dict [(("type"), PyVal.str ("file.create"))],
          PyVal.dict [(("type"), PyVal.str ("file.modify"))],
          PyVal.dict [(("type"), PyVal.str ("file.create"))]])]

/-! ## Lemma layer -/

section Lemmas

variable {α : Type} {β : Type} [DecidableEq α]

theorem dictGet_dictSet_self (d : List (String × String)) (k v : String) :
    dictGet (dictSet d k v) k = some v := by
  induction d with
  | nil => simp [dictGet, dictSet]
  | cons p rest ih =>
    by_cases h : p.1 = k
    · simp [dictGet, dictSet, h]
    · simp [dictGet, dictSet, h, ih]

theorem listFilterNil {p : α → Bool} {l : List α}
    (h : ∀ a ∈ l, p a = false) : l.filter p = [] := by
  induction l with
  | nil => rfl
  | cons x xs ih =>
    have hx := h x (List.mem_cons_self x xs)
    have hxs : ∀ a ∈ xs, p a = false := fun a ha => h a (List.mem_cons_of_mem _ ha)
    simp [List.filter_cons, hx, ih hxs]

theorem bump_absent (d : List (α × Nat)) (k : α)
    (h : k ∉ d.map Prod.fst) : bump d k = d ++ [(k, 1)] := by
  induction d with
  | nil => rfl
  | cons p rest ih =>
    obtain ⟨k2, v⟩ := p
    simp only [List.map_cons, List.mem_cons] at h
    push_neg at h
    have hne : ¬ k2 = k := fun hh => h.1 hh.symm
    simp [bump, hne, ih h.2]

theorem countRowAux_le_one (row : List String) :
    ∀ (visited : List String) (counts : List (String × Nat)),
      (∀ p ∈ counts, p.2 ≤ 1) → (∀ p ∈ counts, p.1 ∈ visited) →
      ∀ p ∈ countRowAux visited counts row, p.2 ≤ 1 := by
  induction row with
  | nil => intro visited counts h1 _ p hp; exact h1 p hp
  | cons item rest ih =>
    intro visited counts h1 h2 p hp
    by_cases hv : item ∈ visited
    · simp only [countRowAux, if_pos hv] at hp
      exact ih visited counts h1 h2 p hp
    · simp only [countRowAux, if_neg hv] at hp
      have hkeys : item ∉ counts.map Prod.fst := by
        intro hk
        rcases List.mem_map.mp hk with ⟨q, hq, hq1⟩
        exact hv (hq1 ▸ h2 q hq)
      rw [bump_absent counts item hkeys] at hp
      refine ih (item :: visited) (counts ++ [(item, 1)]) ?_ ?_ p hp
      · intro q hq
        rcases List.mem_append.mp hq with hq2 | hq2
        · exact h1 q hq2
        · simp at hq2; simp [hq2]
      · intro q hq
        rcases List.mem_append.mp hq with hq2 | hq2
        · exact List.mem_cons_of_mem _ (h2 q hq2)
        · simp at hq2; simp [hq2]

theorem countItems_single_le_one (row : List String) :
    ∀ p ∈ countItems [row], p.2 ≤ 1 := by
  intro p hp
  have : countItems [row] = countRowAux [] [] row := by
    simp [countItems]
  rw [this] at hp
  exact countRowAux_le_one row [] [] (by simp) (by simp) p hp

theorem project_single_nil (ms fuel : Nat) (seq : List String)
    (h : 2 ≤ ms) : project ms fuel [] [seq] = [] := by
  cases fuel with
  | zero => rfl
  | succ f =>
    have hfilter :
        (countItems [seq]).filter (fun p => decide (ms ≤ p.2)) = [] := by
      refine listFilterNil fun p hp => ?_
      have := countItems_single_le_one seq p hp
      simp only [decide_eq_false_iff_not]
      omega
    simp [project, hfilter]

end Lemmas

section CounterLemmas

variable {α : Type} [DecidableEq α]

theorem mem_firstDedupAux (l : List α) :
    ∀ (seen : List α) (a : α), a ∈ firstDedupAux seen l ↔ a ∈ l ∧ a ∉ seen := by
  induction l with
  | nil => intro seen a; simp [firstDedupAux]
  | cons x xs ih =>
    intro seen a
    have hunf : firstDedupAux seen (x :: xs)
        = if x ∈ seen then firstDedupAux seen xs
          else x :: firstDedupAux (x :: seen) xs := rfl
    rw [hunf]
    by_cases hx : x ∈ seen
    · rw [if_pos hx, ih]
      constructor
      · rintro ⟨h1, h2⟩
        exact ⟨List.mem_cons_of_mem _ h1, h2⟩
      · rintro ⟨h1, h2⟩
        rcases List.mem_cons.mp h1 with rfl | h1b
        · exact absurd hx h2
        · exact ⟨h1b, h2⟩
    · rw [if_neg hx]
      constructor
      · intro hmem
        rcases List.mem_cons.mp hmem with rfl | hmem2
        · exact ⟨List.mem_cons_self _ _, hx⟩
        · rcases (ih (x :: seen) a).mp hmem2 with ⟨h1, h2⟩
          exact ⟨List.mem_cons_of_mem _ h1,
            fun hseen => h2 (List.mem_cons_of_mem _ hseen)⟩
      · rintro ⟨h1, h2⟩
        rcases List.mem_cons.mp h1 with rfl | h1b
        · exact List.mem_cons_self _ _
        · by_cases hax : a = x
          · exact hax ▸ List.mem_cons_self _ _
          · refine List.mem_cons_of_mem _ ((ih (x :: seen) a).mpr ⟨h1b, ?_⟩)
            intro hc
            rcases List.mem_cons.mp hc with h | h
            · exact hax h
            · exact h2 h

theorem nodup_firstDedupAux (l : List α) :
    ∀ seen : List α, (firstDedupAux seen l).Nodup := by
  induction l with
  | nil => intro seen; simp [firstDedupAux]
  | cons x xs ih =>
    intro seen
    have hunf : firstDedupAux seen (x :: xs)
        = if x ∈ seen then firstDedupAux seen xs
          else x :: firstDedupAux (x :: seen) xs := rfl
    rw [hunf]
    by_cases hx : x ∈ seen
    · rw [if_pos hx]; exact ih seen
    · rw [if_neg hx, List.nodup_cons]
      refine ⟨fun hmem => ?_, ih (x :: seen)⟩
      have hthis := (mem_firstDedupAux xs (x :: seen) x).mp hmem
      exact hthis.2 (List.mem_cons_self _ _)

theorem firstDedupAux_append_singleton (l : List α) :
    ∀ (seen : List α) (x : α),
      firstDedupAux seen (l ++ [x]) =
        firstDedupAux seen l ++ (if x ∈ seen ∨ x ∈ l then [] else [x]) := by
  induction l with
  | nil =>
    intro seen x
    by_cases hx : x ∈ seen <;> simp [firstDedupAux, hx]
  | cons y ys ih =>
    intro seen x
    have hunf : firstDedupAux seen ((y :: ys) ++ [x])
        = if y ∈ seen then firstDedupAux seen (ys ++ [x])
          else y :: firstDedupAux (y :: seen) (ys ++ [x]) := rfl
    have hunf2 : firstDedupAux seen (y :: ys)
        = if y ∈ seen then firstDedupAux seen ys
          else y :: firstDedupAux (y :: seen) ys := rfl
    rw [hunf, hunf2]
    by_cases hy : y ∈ seen
    · rw [if_pos hy, if_pos hy, ih seen x]
      have hiff : (x ∈ seen ∨ x ∈ ys) ↔ (x ∈ seen ∨ x ∈ y :: ys) := by
        simp only [List.mem_cons]
        constructor
        · rintro (h | h)
          · exact Or.inl h
          · exact Or.inr (Or.inr h)
        · rintro (h | rfl | h)
          · exact Or.inl h
          · exact Or.inl hy
          · exact Or.inr h
      rw [if_congr hiff rfl rfl]
    · rw [if_neg hy, if_neg hy, ih (y :: seen) x]
      have hiff : (x ∈ y :: seen ∨ x ∈ ys) ↔ (x ∈ seen ∨ x ∈ y :: ys) := by
        simp only [List.mem_cons]; tauto
      rw [if_congr hiff rfl rfl, List.cons_append]

theorem mem_firstDedup (l : List α) (a : α) : a ∈ firstDedup l ↔ a ∈ l := by
  simp [firstDedup, mem_firstDedupAux]

theorem nodup_firstDedup (l : List α) : (firstDedup l).Nodup :=
  nodup_firstDedupAux l []

theorem firstDedup_append_singleton (l : List α) (x : α) :
    firstDedup (l ++ [x]) =
      firstDedup l ++ (if x ∈ l then [] else [x]) := by
  have h := firstDedupAux_append_singleton l ([] : List α) x
  simpa [firstDedup] using h

theorem countOcc_append_singleton (l : List α) (x a : α) :
    countOcc a (l ++ [x]) = countOcc a l + (if x = a then 1 else 0) := by
  by_cases h : x = a <;> simp [countOcc, List.filter_append, h]

theorem countOcc_eq_zero (l : List α) (a : α) (h : a ∉ l) : countOcc a l = 0 := by
  have hf : l.filter (fun b => decide (b = a)) = [] := by
    refine listFilterNil fun b hb => ?_
    simp only [decide_eq_false_iff_not]
    rintro rfl; exact h hb
  simp [countOcc, hf]

theorem mapFstPair (l : List α) (c : α → Nat) :
    (l.map (fun k => (k, c k))).map Prod.fst = l := by
  induction l with
  | nil => rfl
  | cons x xs ih => simp [ih]

theorem bump_map_mem (d : List α) (c : α → Nat) (x : α)
    (hmem : x ∈ d) (hnd : d.Nodup) :
    bump (d.map (fun k => (k, c k))) x =
      d.map (fun k => (k, if k = x then c k + 1 else c k)) := by
  induction d with
  | nil => simp at hmem
  | cons y ys ih =>
    have hunf : bump ((y, c y) :: ys.map (fun k => (k, c k))) x
        = if y = x then (y, c y + 1) :: ys.map (fun k => (k, c k))
          else (y, c y) :: bump (ys.map (fun k => (k, c k))) x := rfl
    rcases List.mem_cons.mp hmem with rfl | hmem2
    · have hnotin : x ∉ ys := (List.nodup_cons.mp hnd).1
      simp only [List.map_cons]
      rw [hunf, if_pos rfl]
      have htail : ys.map (fun k => (k, if k = x then c k + 1 else c k))
          = ys.map (fun k => (k, c k)) := by
        apply List.map_congr_left
        intro a ha
        have hax : ¬ a = x := fun hh => hnotin (hh ▸ ha)
        simp [hax]
      rw [htail]
      simp
    · have hyx : ¬ y = x := by
        rintro rfl
        exact (List.nodup_cons.mp hnd).1 hmem2
      simp only [List.map_cons]
      rw [hunf, if_neg hyx, if_neg hyx, ih hmem2 (List.nodup_cons.mp hnd).2]

theorem counter_eq (l : List α) :
    counter l = (firstDedup l).map (fun k => (k, countOcc k l)) := by
  induction l using List.reverseRecOn with
  | nil => rfl
  | append_singleton l x ih =>
    have hstep : counter (l ++ [x]) = bump (counter l) x := by
      simp [counter, List.foldl_append]
    rw [hstep, ih, firstDedup_append_singleton]
    by_cases hx : x ∈ l
    · rw [if_pos hx, List.append_nil]
      have hxd : x ∈ firstDedup l := (mem_firstDedup l x).mpr hx
      rw [bump_map_mem (firstDedup l) (fun k => countOcc k l) x hxd
        (nodup_firstDedup l)]
      apply List.map_congr_left
      intro a _
      by_cases hax : a = x
      · simp [hax, countOcc_append_singleton]
      · have hxa : ¬ x = a := fun hh => hax hh.symm
        simp [hax, countOcc_append_singleton, hxa]
    · rw [if_neg hx]
      have hkeys : x ∉ ((firstDedup l).map (fun k => (k, countOcc k l))).map Prod.fst := by
        rw [mapFstPair]
        exact fun hmem => hx ((mem_firstDedup l x).mp hmem)
      rw [bump_absent _ _ hkeys, List.map_append]
      congr 1
      · apply List.map_congr_left
        intro a ha
        have hal : a ∈ l := (mem_firstDedup l a).mp ha
        have hax : ¬ x = a := by rintro rfl; exact hx hal
        simp [countOcc_append_singleton, hax]
      · simp [countOcc_append_singleton, countOcc_eq_zero l x hx]

end CounterLemmas

section UnifyLemmas

theorem unifyLoop_fst (ms : List String) :
    ∀ (reg : Bool) (seen : List String) (st : RegState),
      (unifyLoop reg seen ms st).1 = (dedupByAux sha1_10 seen ms).map hashForm := by
  induction ms with
  | nil => intro reg seen st; rfl
  | cons m rest ih =>
    intro reg seen st
    have hunf : unifyLoop reg seen (m :: rest) st
        = if sha1_10 m ∈ seen then unifyLoop reg seen rest st
          else
            (("M_" ++ sha1_10 m) ::
              (unifyLoop reg (sha1_10 m :: seen) rest
                (if reg then MotifRegistry.register m ("M_" ++ sha1_10 m) st else st)).1,
              (unifyLoop reg (sha1_10 m :: seen) rest
                (if reg then MotifRegistry.register m ("M_" ++ sha1_10 m) st else st)).2) := by
      simp only [unifyLoop]
    have hunf2 : dedupByAux sha1_10 seen (m :: rest)
        = if sha1_10 m ∈ seen then dedupByAux sha1_10 seen rest
          else m :: dedupByAux sha1_10 (sha1_10 m :: seen) rest := rfl
    rw [hunf, hunf2]
    by_cases hm : sha1_10 m ∈ seen
    · rw [if_pos hm, if_pos hm, ih]
    · rw [if_neg hm, if_neg hm]
      simp only [List.map_cons]
      rw [ih]
      rfl

theorem dedupByAux_f_not_mem (f : String → String) (ms : List String) :
    ∀ (seen : List String) (y : String),
      y ∈ dedupByAux f seen ms → f y ∉ seen := by
  induction ms with
  | nil => intro seen y h; simp [dedupByAux] at h
  | cons x xs ih =>
    intro seen y h
    by_cases hx : f x ∈ seen
    · rw [show dedupByAux f seen (x :: xs)
          = dedupByAux f seen xs from by simp [dedupByAux, hx]] at h
      exact ih seen y h
    · rw [show dedupByAux f seen (x :: xs)
          = x :: dedupByAux f (f x :: seen) xs from by simp [dedupByAux, hx]] at h
      rcases List.mem_cons.mp h with rfl | h2
      · exact hx
      · intro hc
        exact ih (f x :: seen) y h2 (List.mem_cons_of_mem _ hc)

theorem dedupByAux_map_nodup (f : String → String) (ms : List String) :
    ∀ seen : List String, ((dedupByAux f seen ms).map f).Nodup := by
  induction ms with
  | nil => intro seen; simp [dedupByAux]
  | cons x xs ih =>
    intro seen
    by_cases hx : f x ∈ seen
    · rw [show dedupByAux f seen (x :: xs)
          = dedupByAux f seen xs from by simp [dedupByAux, hx]]
      exact ih seen
    · rw [show dedupByAux f seen (x :: xs)
          = x :: dedupByAux f (f x :: seen) xs from by simp [dedupByAux, hx]]
      simp only [List.map_cons, List.nodup_cons]
      constructor
      · intro hmem
        rcases List.mem_map.mp hmem with ⟨y, hy, hfy⟩
        exact dedupByAux_f_not_mem f xs (f x :: seen) y hy
          (hfy ▸ List.mem_cons_self _ _)
      · exact ih (f x :: seen)

theorem dedupByAux_inj_eq (f : String → String) (ms : List String) :
    ∀ seenR : List String,
      (∀ a ∈ ms, ∀ b ∈ ms, f a = f b → a = b) →
      (∀ a ∈ ms, ∀ b ∈ seenR, f a = f b → a = b) →
      dedupByAux f (seenR.map f) ms = firstDedupAux seenR ms := by
  induction ms with
  | nil => intro seenR _ _; rfl
  | cons x xs ih =>
    intro seenR hms hseen
    have hcond : f x ∈ seenR.map f ↔ x ∈ seenR := by
      constructor
      · intro hm
        rcases List.mem_map.mp hm with ⟨b, hb, hfb⟩
        have := hseen x (List.mem_cons_self _ _) b hb hfb.symm
        exact this ▸ hb
      · intro hm; exact List.mem_map.mpr ⟨x, hm, rfl⟩
    have hunf : dedupByAux f (seenR.map f) (x :: xs)
        = if f x ∈ seenR.map f then dedupByAux f (seenR.map f) xs
          else x :: dedupByAux f (f x :: seenR.map f) xs := rfl
    have hunf2 : firstDedupAux seenR (x :: xs)
        = if x ∈ seenR then firstDedupAux seenR xs
          else x :: firstDedupAux (x :: seenR) xs := rfl
    rw [hunf, hunf2]
    by_cases hx : x ∈ seenR
    · rw [if_pos ((hcond).mpr hx), if_pos hx]
      exact ih seenR
        (fun a ha b hb => hms a (List.mem_cons_of_mem _ ha) b (List.mem_cons_of_mem _ hb))
        (fun a ha b hb => hseen a (List.mem_cons_of_mem _ ha) b hb)
    · rw [if_neg (fun hc => hx (hcond.mp hc)), if_neg hx]
      have hrec := ih (x :: seenR)
        (fun a ha b hb => hms a (List.mem_cons_of_mem _ ha) b (List.mem_cons_of_mem _ hb))
        (fun a ha b hb => by
          rcases List.mem_cons.mp hb with rfl | hb2
          · exact fun hf => hms a (List.mem_cons_of_mem _ ha) b
              (List.mem_cons_self _ _) hf
          · exact fun hf => hseen a (List.mem_cons_of_mem _ ha) b hb2 hf)
      rw [show (x :: seenR).map f = f x :: seenR.map f from rfl] at hrec
      rw [hrec]

theorem hashForm_inj (a b : String) (h : "M_" ++ a = "M_" ++ b) : a = b := by
  cases a with
  | mk da =>
    cases b with
    | mk db =>
      have h2 : 'M' :: '_' :: da = 'M' :: '_' :: db := by
        have h3 := congrArg String.data h
        simpa [String.data] using h3
      simp at h2
      simp [h2]

end UnifyLemmas

section IndexLemmas

variable {α : Type} {β : Type}

theorem getD_take (l : List α) :
    ∀ (n i : Nat) (d : α), i < n → (l.take n).getD i d = l.getD i d := by
  induction l with
  | nil => intro n i d _; simp
  | cons x xs ih =>
    intro n i d hin
    cases n with
    | zero => omega
    | succ m =>
      cases i with
      | zero => simp
      | succ j =>
        simp only [List.take, List.getD_cons_succ]
        exact ih m j d (by omega)

theorem getD_map (l : List α) (f : α → β) :
    ∀ (i : Nat) (d : β) (d2 : α), i < l.length →
      (l.map f).getD i d = f (l.getD i d2) := by
  induction l with
  | nil => intro i d d2 h; simp at h
  | cons x xs ih =>
    intro i d d2 h
    cases i with
    | zero => simp
    | succ j =>
      simp only [List.map_cons, List.getD_cons_succ]
      exact ih j d d2 (by simpa using Nat.lt_of_succ_lt_succ h)

theorem getD_zip_tail (l : List α) :
    ∀ (i : Nat) (d1 d2 : α), i + 1 < l.length →
      (l.zip l.tail).getD i (d1, d2) = (l.getD i d1, l.getD (i + 1) d2) := by
  induction l with
  | nil => intro i d1 d2 h; simp at h
  | cons x xs ih =>
    intro i d1 d2 h
    cases xs with
    | nil => simp at h
    | cons y ys =>
      cases i with
      | zero => simp [List.zip]
      | succ j =>
        have h2 : j + 1 < (y :: ys).length := by
          simp at h ⊢; omega
        have := ih j d1 d2 h2
        simpa [List.zip] using this

end IndexLemmas

theorem mapPairFilter {α β : Type} [DecidableEq α] (l : List α) (c : α → Nat)
    (g : α × Nat → β) :
    ((l.map (fun k => (k, c k))).filter (fun p => decide (2 ≤ p.2))).map g
      = (l.filter (fun k => decide (2 ≤ c k))).map (fun k => g (k, c k)) := by
  induction l with
  | nil => rfl
  | cons x xs ih =>
    by_cases h : 2 ≤ c x
    · simp [List.map_cons, List.filter_cons, h, ih]
    · simp [List.map_cons, List.filter_cons, h, ih]

/-! ## Claim theorems -/

/-- C1 (code bug): on S = [A, B, A, B, C] with min_support 2 and max_len 4,
prefixspan returns no pattern at all, so prefixspan_motifs emits nothing;
in particular the PS_A_B motif the specification promises is absent.  The
projected database is initialized as the single row [S], so every per-row
deduplicated support is at most 1 and can never reach the default
min_support of 2. -/
theorem prefixspan_dead_end_eval :
    prefixspan (["A", "B", "A", "B", "C"]) 2 4 = []
    ∧ prefixspan_motifs (["A", "B", "A", "B", "C"]) 2 4 = []
    ∧ ¬ ("PS_A_B" ∈ prefixspan_motifs (["A", "B", "A", "B", "C"]) 2 4) := by
  decide

/-- C2 (confirmed): for every sequence and every min_support at least 2
(hence for the defaults used by motifs_from_sequence), prefixspan returns
the empty pattern list and prefixspan_motifs emits no motif: the projected
database starts as the single row [seq] and symbols are counted at most
once per row, so no support reaches 2. -/
theorem prefixspan_empty_of_min_support_ge_two (seq : List String)
    (min_support max_len : Nat) (h : 2 ≤ min_support) :
    prefixspan seq min_support max_len = []
    ∧ prefixspan_motifs seq min_support max_len = [] := by
  have hmain : prefixspan seq min_support max_len = [] :=
    project_single_nil min_support max_len seq h
  refine ⟨hmain, ?_⟩
  by_cases hlt : seq.length < 2
  · simp [prefixspan_motifs, hlt]
  · simp [prefixspan_motifs, hlt, hmain]

/-- Witness for C2 at the concrete sequence [X, Y, X] with the default
parameters min_support 2 and max_len 4. -/
theorem prefixspan_empty_witness :
    2 ≤ 2
    ∧ (prefixspan (["X", "Y", "X"]) 2 4 = []
        ∧ prefixspan_motifs (["X", "Y", "X"]) 2 4 = []) :=
  ⟨by decide,
    prefixspan_empty_of_min_support_ge_two (["X", "Y", "X"]) 2 4 (by decide)⟩

/-- C4 (counterexample): the empty record is a dict, so canonicalize_event
does not return the sentinel for it: the missing declared type defaults to
the head "other", which is hashed to EV_d0941e. -/
theorem canonicalize_missing_type_counterexample :
    canonicalize_event (PyVal.dict []) = "EV_d0941e"
    ∧ canonicalize_event (PyVal.dict []) ≠ "EV_OTHER" := by
  decide

/-- C4 (amended): canonicalize_event is total and returns the sentinel
EV_OTHER for every non-record input; a record with no type, operation or
verb field instead falls back to the default head "other" and returns its
hashed symbol EV_(first 6 hex of sha1 of "other"), not the sentinel. -/
theorem canonicalize_sentinel_amended (v : PyVal) :
    ((∀ fields, v ≠ PyVal.dict fields) → canonicalize_event v = "EV_OTHER")
    ∧ (∀ fields, v = PyVal.dict fields →
        pyGet fields ("type") = PyVal.none →
        pyGet fields ("operation") = PyVal.none →
        pyGet fields ("verb") = PyVal.none →
        canonicalize_event v = "EV_" ++ sTake 6 (sha1_hex ("other"))) := by
  constructor
  · intro hnd
    cases v with
    | dict fields => exact absurd rfl (hnd fields)
    | none => rfl
    | str s => rfl
    | int n => rfl
    | bool b => rfl
    | list items => rfl
  · rintro fields rfl ht ho hv
    show canonicalize_event (PyVal.dict fields) = _
    simp only [canonicalize_event]
    rw [ht, ho, hv]
    rfl

/-- Witness for C4 at a non-record and at a record without any declared
type field. -/
theorem canonicalize_sentinel_witness :
    canonicalize_event (PyVal.str ("x")) = "EV_OTHER"
    ∧ canonicalize_event (PyVal.dict [(("file"), PyVal.int 3)])
        = "EV_" ++ sTake 6 (sha1_hex ("other")) :=
  ⟨(canonicalize_sentinel_amended (PyVal.str ("x"))).1
      (fun _fields hcontra => by cases hcontra),
    (canonicalize_sentinel_amended (PyVal.dict [(("file"), PyVal.int 3)])).2
      [(("file"), PyVal.int 3)] rfl rfl rfl rfl⟩

/-- C5 (counterexample): R_549255 and R_612921 are distinct raw motifs
whose sha1 digests share the first 10 hex characters; after a unify call
registers the first, a later unify call with the second overwrites the
stored original, so get_original returns the second raw motif, not the
first.  The registry is last-writer-wins, not first-writer-wins. -/
theorem registry_first_writer_counterexample :
    sha1_10 ("R_549255") = sha1_10 ("R_612921")
    ∧ ("R_549255" : String) ≠ "R_612921"
    ∧ MotifRegistry.get_original ("M_10fde556f0")
        (unify_motifs [[("R_612921")]] 300 true
          (unify_motifs [[("R_549255")]] 300 true regEmpty).2).2
        = some ("R_612921")
    ∧ MotifRegistry.get_original ("M_10fde556f0")
        (unify_motifs [[("R_612921")]] 300 true
          (unify_motifs [[("R_549255")]] 300 true regEmpty).2).2
        ≠ some ("R_549255") := by
  decide

/-- C5 (amended): register plainly overwrites the mapping stored under a
hash, so after register(raw1, h) and any later register(raw2, h) the
lookup get_original(h) returns raw2 (last-writer-wins), from any starting
state. -/
theorem register_last_writer_wins (raw1 raw2 h : String) (st : RegState) :
    MotifRegistry.get_original h
      (MotifRegistry.register raw2 h (MotifRegistry.register raw1 h st))
      = some raw2 := by
  simp only [MotifRegistry.get_original, MotifRegistry.register]
  exact dictGet_dictSet_self _ h raw2

/-- C6 (counterexample): get_category is recomputed on every call and is
not stable across registry writes: the category of the hashed motif of
T_A_B changes from Mined Pattern to Sequential Pattern once a unify call
registers the hash. -/
theorem category_cache_counterexample :
    MotifRegistry.get_category ("M_ca85322e12") regEmpty = "Mined Pattern"
    ∧ MotifRegistry.get_category ("M_ca85322e12")
        (unify_motifs [[("T_A_B")]] 300 true regEmpty).2 = "Sequential Pattern"
    ∧ ("Mined Pattern" : String) ≠ "Sequential Pattern" := by
  decide

/-- C6 (amended): describe really is memoized per motif string: once
describe(m) has run, any later describe(m) returns the same description,
also when register operations touch the registry in between; get_category
has no such cache and may change (see the counterexample). -/
theorem describe_memoized (m raw h : String) (st : RegState) :
    (MotifRegistry.describe m (MotifRegistry.describe m st).2).1
      = (MotifRegistry.describe m st).1
    ∧ (MotifRegistry.describe m
        (MotifRegistry.register raw h (MotifRegistry.describe m st).2)).1
      = (MotifRegistry.describe m st).1 := by
  cases hc : dictGet st.descriptions m with
  | some d =>
    have h1 : MotifRegistry.describe m st = (d, st) := by
      simp [MotifRegistry.describe, hc]
    rw [h1]
    constructor
    · simp [MotifRegistry.describe, hc]
    · simp [MotifRegistry.describe, MotifRegistry.register, hc]
  | none =>
    have h1 : MotifRegistry.describe m st
        = (MotifRegistry.generate_description st m,
            { registry := st.registry, descriptions := dictSet st.descriptions m (MotifRegistry.generate_description st m) }) := by
      simp [MotifRegistry.describe, hc]
    rw [h1]
    constructor
    · simp [MotifRegistry.describe, dictGet_dictSet_self]
    · simp [MotifRegistry.describe, MotifRegistry.register, dictGet_dictSet_self]

/-- C9 (confirmed): from a cleared registry, unifying the single raw motif
T_A_B returns exactly the one hashed motif M_ca85322e12; get_original
resolves it back to T_A_B and describe renders the canned transition
template Edit Transition. -/
theorem registry_round_trip :
    (unify_motifs [[("T_A_B")]] 300 true regEmpty).1 = ["M_ca85322e12"]
    ∧ MotifRegistry.get_original ("M_ca85322e12")
        (unify_motifs [[("T_A_B")]] 300 true regEmpty).2 = some ("T_A_B")
    ∧ (MotifRegistry.describe ("M_ca85322e12")
        (unify_motifs [[("T_A_B")]] 300 true regEmpty).2).1 = "Edit Transition" := by
  decide

/-- C3 (counterexample): on the trace with declared types file.create,
file.modify, file.create and no prompts, the 3-symbol sequence satisfies
symbol 0 = symbol 2, but the structural miner emits no motif at all (all
three symbols are equal, so no A-B-A cycle exists) and no raw motif
registered by motifs_from_sequence starts with CYCLE_. -/
theorem c3_no_cycle_counterexample :
    (event_sequence c3_trace).length = 3
    ∧ (event_sequence c3_trace).getD 0 ("") = (event_sequence c3_trace).getD 2 ("")
    ∧ structural_motifs (event_sequence c3_trace) = []
    ∧ ((motifs_from_sequence (event_sequence c3_trace) 300 regEmpty).2.registry.all
        (fun p => !(sStartsWith p.2 ("CYCLE_")))) = true := by
  decide

/-- C3 (amended): both file.create and file.modify share the head "file",
so the trace canonicalizes to three equal symbols EV_971c41; the sequence
has symbol 0 = symbol 2, and mining yields hashed motifs, but they decode
to a transition and a compression motif, none to a CYCLE_ pattern. -/
theorem c3_sequence_amended :
    event_sequence c3_trace = ["EV_971c41", "EV_971c41", "EV_971c41"]
    ∧ (motifs_from_sequence (event_sequence c3_trace) 300 regEmpty).1
        = ["M_a9f0f85683", "M_6143c12296"]
    ∧ (motifs_from_sequence (event_sequence c3_trace) 300 regEmpty).2.registry
        = [(("M_a9f0f85683"), ("T_EV_971c41_EV_971c41")),
            (("M_6143c12296"), ("SQ_EV_971c41_EV_971c41"))] := by
  decide

/-- C7 (counterexample): the distinct raw motifs R_549255 and R_612921
share their 10-hex hash, so unify_motifs returns a single element for the
two distinct raws: the output is not the list of hashed forms of the
distinct raw motifs. -/
theorem unify_collision_counterexample :
    ("R_549255" : String) ≠ "R_612921"
    ∧ (firstDedup [("R_549255"), ("R_612921")]).length = 2
    ∧ (unify_motifs [[("R_549255"), ("R_612921")]] 300 true regEmpty).1
        = ["M_10fde556f0"]
    ∧ (unify_motifs [[("R_549255"), ("R_612921")]] 300 true regEmpty).1.length = 1 := by
  decide

/-- C7 (amended): unconditionally, for every collection of input lists,
every max_total, both register flags and every starting state, unify_motifs
emits one M_(10 hex) per distinct hash of the concatenated inputs, in
first-occurrence order, truncated to max_total, with all elements pairwise
distinct; duplicate raw motifs consume no budget.  When additionally the
inputs have no 10-hex hash collision, the output is exactly the list of
hashed forms of the distinct raw motifs (truncated), and at least 300
distinct raws with max_total 300 yield exactly 300 outputs. -/
theorem unify_motifs_spec (motif_lists : List (List String)) (max_total : Nat)
    (reg : Bool) (st : RegState) :
    (unify_motifs motif_lists max_total reg st).1
        = ((dedupBy sha1_10 motif_lists.flatten).map hashForm).take max_total
    ∧ (unify_motifs motif_lists max_total reg st).1.Nodup
    ∧ (unify_motifs motif_lists max_total reg st).1.length ≤ max_total
    ∧ ((∀ a ∈ motif_lists.flatten, ∀ b ∈ motif_lists.flatten,
          sha1_10 a = sha1_10 b → a = b) →
        (unify_motifs motif_lists max_total reg st).1
            = ((firstDedup motif_lists.flatten).map hashForm).take max_total
        ∧ (300 ≤ (firstDedup motif_lists.flatten).length → max_total = 300 →
            (unify_motifs motif_lists max_total reg st).1.length = 300)) := by
  have hfst : (unify_motifs motif_lists max_total reg st).1
      = ((dedupBy sha1_10 motif_lists.flatten).map hashForm).take max_total := by
    simp only [unify_motifs]
    rw [unifyLoop_fst]
    rfl
  have hnodup : (unify_motifs motif_lists max_total reg st).1.Nodup := by
    rw [hfst]
    have hfull : ((dedupBy sha1_10 motif_lists.flatten).map hashForm).Nodup := by
      have hmm : (dedupBy sha1_10 motif_lists.flatten).map hashForm
          = ((dedupBy sha1_10 motif_lists.flatten).map sha1_10).map
              (fun hh => "M_" ++ hh) := by
        rw [List.map_map]; rfl
      rw [hmm]
      refine List.Nodup.map (fun a b hab => hashForm_inj a b hab) ?_
      exact dedupByAux_map_nodup sha1_10 motif_lists.flatten []
    exact hfull.sublist (List.take_sublist _ _)
  have hle : (unify_motifs motif_lists max_total reg st).1.length ≤ max_total := by
    rw [hfst]
    simp [List.length_take]
  refine ⟨hfst, hnodup, hle, fun hinj => ?_⟩
  have hdedup : dedupBy sha1_10 motif_lists.flatten
      = firstDedup motif_lists.flatten := by
    have hd := dedupByAux_inj_eq sha1_10 motif_lists.flatten [] hinj
      (fun a _ b hb => by simp at hb)
    simpa [dedupBy, firstDedup] using hd
  have hsnd : (unify_motifs motif_lists max_total reg st).1
      = ((firstDedup motif_lists.flatten).map hashForm).take max_total := by
    rw [hfst, hdedup]
  refine ⟨hsnd, fun hge he => ?_⟩
  rw [hsnd, he]
  simp only [List.length_take, List.length_map]
  omega

/-- Witness for C7: the unconditional Nodup conclusion at a concrete input
with a duplicate raw motif, plus the collision-free conclusions with the
inner no-collision hypothesis discharged by evaluation. -/
theorem unify_motifs_spec_witness :
    (unify_motifs [[("T_A_B"), ("T_A_B")], [("SQ_A_B")]] 300 true regEmpty).1.Nodup
    ∧ (∀ a ∈ ([[("T_A_B"), ("T_A_B")], [("SQ_A_B")]] : List (List String)).flatten,
        ∀ b ∈ ([[("T_A_B"), ("T_A_B")], [("SQ_A_B")]] : List (List String)).flatten,
          sha1_10 a = sha1_10 b → a = b)
    ∧ (unify_motifs [[("T_A_B"), ("T_A_B")], [("SQ_A_B")]] 300 true regEmpty).1
        = ((firstDedup ([[("T_A_B"), ("T_A_B")], [("SQ_A_B")]]
            : List (List String)).flatten).map hashForm).take 300 :=
  ⟨(unify_motifs_spec [[("T_A_B"), ("T_A_B")], [("SQ_A_B")]] 300 true regEmpty).2.1,
    by decide,
    ((unify_motifs_spec [[("T_A_B"), ("T_A_B")], [("SQ_A_B")]] 300 true
      regEmpty).2.2.2 (by decide)).1⟩

/-- C8 (confirmed): transition_motifs returns the empty list for sequences
shorter than 2, and otherwise exactly min(n - 1, max_count) motifs, the
i-th being T_(S i)_(S (i+1)) in order of the adjacent pairs. -/
theorem transition_motifs_spec (seq : List String) (max_count : Nat) :
    (seq.length < 2 → transition_motifs seq max_count = [])
    ∧ (2 ≤ seq.length →
        (transition_motifs seq max_count).length
            = min (seq.length - 1) max_count
        ∧ ∀ i, i < (transition_motifs seq max_count).length →
            (transition_motifs seq max_count).getD i ("")
              = "T_" ++ seq.getD i ("") ++ "_" ++ seq.getD (i + 1) ("")) := by
  constructor
  · intro h; simp [transition_motifs, h]
  · intro h
    have hnot : ¬ seq.length < 2 := by omega
    have hlen : (transition_motifs seq max_count).length
        = min (seq.length - 1) max_count := by
      simp [transition_motifs, hnot, List.length_take, List.length_zip,
        List.length_tail]
      omega
    refine ⟨hlen, ?_⟩
    intro i hi
    rw [hlen] at hi
    have hi1 : i < max_count := by omega
    have hi2 : i + 1 < seq.length := by omega
    have hzl : i < (seq.zip seq.tail).length := by
      simp [List.length_zip, List.length_tail]
      omega
    rw [show transition_motifs seq max_count
        = ((seq.zip seq.tail).map (fun p => "T_" ++ p.1 ++ "_" ++ p.2)).take max_count
        from by simp [transition_motifs, hnot]]
    rw [getD_take _ max_count i ("") hi1]
    rw [getD_map (seq.zip seq.tail) (fun p => "T_" ++ p.1 ++ "_" ++ p.2) i ("")
      (("" : String), ("" : String)) hzl]
    rw [getD_zip_tail seq i ("") ("") hi2]

/-- Witness for C8 at the short sequence [A] and at [A, B, C] with
max_count 2. -/
theorem transition_motifs_spec_witness :
    ((["A"] : List String).length < 2 → transition_motifs (["A"]) 5 = [])
    ∧ transition_motifs (["A"]) 5 = []
    ∧ 2 ≤ (["A", "B", "C"] : List String).length
    ∧ (transition_motifs (["A", "B", "C"]) 2).length
        = min ((["A", "B", "C"] : List String).length - 1) 2 :=
  ⟨(transition_motifs_spec (["A"]) 5).1,
    (transition_motifs_spec (["A"]) 5).1 (by decide),
    by decide,
    ((transition_motifs_spec (["A", "B", "C"]) 2).2 (by decide)).1⟩

/-- C10 (confirmed): for sequences of length at least 2, sequitur_rules is
exactly one SQ_(a)_(b) per distinct adjacent bigram of multiplicity at
least 2, in first-occurrence order, followed (when the length is at least
3) by one SQ_(a)_(b)_(c) per such trigram; and S = [X, Y, X, Y] yields
exactly one SQ_X_Y. -/
theorem sequitur_rules_spec (seq : List String) (h2 : 2 ≤ seq.length) :
    sequitur_rules seq =
      ((firstDedup (seq.zip seq.tail)).filter
          (fun bg => decide (2 ≤ countOcc bg (seq.zip seq.tail)))).map
        (fun bg => "SQ_" ++ bg.1 ++ "_" ++ bg.2)
      ++ (if 3 ≤ seq.length then
            ((firstDedup ((seq.zip seq.tail).zip seq.tail.tail)).filter
                (fun tg => decide (2 ≤ countOcc tg
                  ((seq.zip seq.tail).zip seq.tail.tail)))).map
              (fun tg => "SQ_" ++ tg.1.1 ++ "_" ++ tg.1.2 ++ "_" ++ tg.2)
          else [])
    ∧ countOcc ("SQ_X_Y") (sequitur_rules (["X", "Y", "X", "Y"])) = 1 := by
  constructor
  · have hnot : ¬ seq.length < 2 := by omega
    by_cases h3 : 3 ≤ seq.length
    · simp only [sequitur_rules, if_neg hnot, if_pos h3]
      rw [counter_eq (seq.zip seq.tail), mapPairFilter,
        counter_eq ((seq.zip seq.tail).zip seq.tail.tail), mapPairFilter]
    · simp only [sequitur_rules, if_neg hnot, if_neg h3]
      rw [counter_eq (seq.zip seq.tail), mapPairFilter]
  · decide

/-- Witness for C10 at the two-symbol sequence [X, Y]. -/
theorem sequitur_rules_spec_witness :
    2 ≤ (["X", "Y"] : List String).length
    ∧ (sequitur_rules (["X", "Y"]) =
        ((firstDedup ((["X", "Y"] : List String).zip
            (["X", "Y"] : List String).tail)).filter
            (fun bg => decide (2 ≤ countOcc bg ((["X", "Y"] : List String).zip
              (["X", "Y"] : List String).tail)))).map
          (fun bg => "SQ_" ++ bg.1 ++ "_" ++ bg.2)
        ++ (if 3 ≤ (["X", "Y"] : List String).length then
              ((firstDedup (((["X", "Y"] : List String).zip
                  (["X", "Y"] : List String).tail).zip
                  (["X", "Y"] : List String).tail.tail)).filter
                  (fun tg => decide (2 ≤ countOcc tg (((["X", "Y"] : List String).zip
                    (["X", "Y"] : List String).tail).zip
                    (["X", "Y"] : List String).tail.tail)))).map
                (fun tg => "SQ_" ++ tg.1.1 ++ "_" ++ tg.1.2 ++ "_" ++ tg.2)
            else [])
      ∧ countOcc ("SQ_X_Y") (sequitur_rules (["X", "Y", "X", "Y"])) = 1) :=
  ⟨by decide, sequitur_rules_spec (["X", "Y"]) (by decide)⟩
